import Mathlib

/-!
Shallow embedding of `src/dist/aurelia-fetch-client.js` (an HTTP client
wrapping a fetch-style transport) and verification of the specification
claims about it.

Modelling conventions:
- JavaScript strings are Lean `String`s; the Fetch `Headers` object is a
  list of name/value pairs with ASCII case-insensitive name lookup.
- Promises are modelled by their settlement: `Outcome` is either
  `resolved v` or `rejected v` (execution is single-threaded and every
  promise in the pipeline settles).
- `undefined`/`null` fields are modelled with `Option`.
- JS string truthiness (`!s` is true for `''`, `null`, `undefined`) is
  modelled explicitly where the source relies on it.
-/

set_option autoImplicit false

namespace FetchClient

/-! ## ASCII case-insensitive header names

Fetch header-name comparison is ASCII case-insensitive; `lowerChar` is the
ASCII lowercasing used for that comparison. -/

def lowerChar (c : Char) : Char :=
  if 'A' ≤ c ∧ c ≤ 'Z' then Char.ofNat (c.toNat + 32) else c

def lowerStr (s : String) : String :=
  ⟨s.data.map lowerChar⟩

def headerNameMatches (a b : String) : Bool :=
  lowerStr a == lowerStr b

/-! ## Headers (the Fetch `Headers` dependency)

A header list supports `get`/`set`/`has` by case-insensitive name.
`get` combines multiple values with `", "` as the Fetch API does;
`set` removes every entry with the name and stores the new value. -/

abbrev HeaderList := List (String × String)

def hHas (h : HeaderList) (n : String) : Bool :=
  h.any fun p => headerNameMatches p.1 n

def hValues (h : HeaderList) (n : String) : List String :=
  (h.filter fun p => headerNameMatches p.1 n).map Prod.snd

def combineValues : List String → Option String
  | [] => none
  | v :: vs => some (vs.foldl (fun acc w => acc ++ ", " ++ w) v)

def hGet (h : HeaderList) (n : String) : Option String :=
  combineValues (hValues h n)

def hDelete (h : HeaderList) (n : String) : HeaderList :=
  h.filter fun p => !headerNameMatches p.1 n

def hSet (h : HeaderList) (n v : String) : HeaderList :=
  hDelete h n ++ [(n, v)]

/-- JS string falsiness of a nullable string: `!x` is `true` exactly for
`null`/`undefined` (`none`) and the empty string. -/
def jsStrFalsy : Option String → Bool
  | none => true
  | some s => s == ""

/-! ## absoluteUrlRegexp and getRequestUrl

`const absoluteUrlRegexp = /^([a-z][a-z0-9+\-.]*:)?\/\//i;`

`absoluteUrlRegexpTest s` is `absoluteUrlRegexp.test(s)`: the target either
starts with `//`, or starts with an ASCII letter followed by scheme
characters up to a `:` that is immediately followed by `//`.  Since `:` is
not a scheme character the regex match is deterministic. -/

def isSchemeFirst (c : Char) : Bool :=
  (decide ('a' ≤ c) && decide (c ≤ 'z')) || (decide ('A' ≤ c) && decide (c ≤ 'Z'))

def isSchemeChar (c : Char) : Bool :=
  isSchemeFirst c || (decide ('0' ≤ c) && decide (c ≤ '9')) ||
    c == '+' || c == '-' || c == '.'

def startsWithDoubleSlash : List Char → Bool
  | c :: d :: _ => c == '/' && d == '/'
  | _ => false

def schemeRest : List Char → Bool
  | [] => false
  | c :: cs => if c == ':' then startsWithDoubleSlash cs
               else if isSchemeChar c then schemeRest cs
               else false

def absoluteUrlRegexpTest : List Char → Bool
  | [] => false
  | c :: cs => startsWithDoubleSlash (c :: cs) || (isSchemeFirst c && schemeRest cs)

/-- `getRequestUrl(baseUrl, url)`; `baseUrl : Option String` models the field
possibly being `undefined`, and `baseUrl.getD ""` is `baseUrl || ''`. -/
def getRequestUrl (baseUrl : Option String) (url : String) : String :=
  if absoluteUrlRegexpTest url.data then url else (baseUrl.getD "") ++ url

/-! ## Default headers and request building -/

/-- A default-header value: either a string or a callable producing one
(`parseHeaderValues` invokes function-valued entries). -/
inductive HVal where
  | str (s : String)
  | thunk (f : Unit → String)

def resolveHVal : HVal → String
  | .str s => s
  | .thunk f => f ()

/-- The `headers` member of the default options: either a plain key-to-value
object or an (opaque) `Headers` collection instance. -/
inductive HeadersArg where
  | plain (hs : List (String × HVal))
  | inst (hs : HeaderList)

/-- `parseHeaderValues(headers)`: `for name in headers || {}` over own
enumerable properties, invoking function values.  A `Headers` instance has
no own enumerable properties, so it yields the empty mapping (which is why
`configure` rejects `Headers` instances as default headers). -/
def parseHeaderValues : Option HeadersArg → HeaderList
  | some (.plain hs) => hs.map fun p => (p.1, resolveHVal p.2)
  | some (.inst _) => []
  | none => []

/-- The default request options, projected onto the fields the claims
exercise (the remaining `RequestInit` fields are carried through the merge
untouched). -/
structure DefaultsRec where
  headers : Option HeadersArg := none

/-- A built `Request` value, projected onto its url and headers. -/
structure RequestM where
  url : String
  headers : HeaderList
  deriving DecidableEq

/-- A request body: a `Blob` carrying its declared `type` (possibly the
empty string), or some other truthy body value. -/
inductive BodyVal where
  | blob (type : String)
  | other
  deriving DecidableEq

/-- The per-call `init` options object, projected onto headers and body. -/
structure InitArg where
  headers : Option HeaderList := none
  body : Option BodyVal := none
  deriving DecidableEq

/-- The first argument of `HttpClient.fetch`: a URL string or a `Request`. -/
inductive FetchInput where
  | url (s : String)
  | request (r : RequestM)
  deriving DecidableEq

/-- `setDefaultHeaders(headers, defaultHeaders)`: for each default entry,
set it on `headers` unless a header with that (case-insensitive) name is
already present. -/
def setDefaultHeaders (headers : HeaderList) : HeaderList → HeaderList
  | [] => headers
  | (n, v) :: ds =>
      setDefaultHeaders (if hHas headers n then headers else hSet headers n v) ds

/-- The `body && Blob.prototype.isPrototypeOf(body) && body.type` condition:
the declared content type of a `Blob` body whose `type` is truthy. -/
def blobContentType : Option BodyVal → Option String
  | some (.blob t) => if t = "" then none else some t
  | _ => none

/-- Lines 377-379 of `buildRequest`: `if (!requestContentType &&
new Headers(parsedDefaultHeaders).has('content-type'))` set the default
content type on the request.  The request's own content type counts as
missing when it is falsy, i.e. absent or the empty string. -/
def backfillContentType (headers : HeaderList) (requestContentType : Option String)
    (parsedDefaultHeaders : HeaderList) : HeaderList :=
  if jsStrFalsy requestContentType && hHas parsedDefaultHeaders "content-type" then
    hSet headers "Content-Type" ((hGet parsedDefaultHeaders "content-type").getD "")
  else headers

/-- Lines 381-385 of `buildRequest`: the IE/Edge workaround forcing the
content type of a typed `Blob` body. -/
def applyBlobType (body : Option BodyVal) (headers : HeaderList) : HeaderList :=
  match blobContentType body with
  | some t => hSet headers "Content-Type" t
  | none => headers

/-- Lines 377-385 of `buildRequest`, shared by both input branches:
content-type backfill from the parsed default headers, then the
default-header merge, then the Blob content-type workaround. -/
def buildRequestFinish (request : RequestM) (requestContentType : Option String)
    (parsedDefaultHeaders : HeaderList) (body : Option BodyVal) : RequestM :=
  { request with headers := (applyBlobType body
      (setDefaultHeaders
        (backfillContentType request.headers requestContentType parsedDefaultHeaders)
        parsedDefaultHeaders)) }

/-- `buildRequest(input, init)` with `this.baseUrl`/`this.defaults` passed
explicitly.  For a `Request` input the request is reused as-is (and `body`
stays undefined); for a URL string the init objects are merged
(`Object.assign({}, defaults, { headers: {} }, init, bodyObj)`, so the
request's initial headers come from `init` alone) and the request is
constructed from the resolved URL. -/
def buildRequest (baseUrl : Option String) (defaults0 : Option DefaultsRec)
    (input : FetchInput) (init0 : Option InitArg) : RequestM :=
  let defaults := defaults0.getD {}
  let parsedDefaultHeaders := parseHeaderValues defaults.headers
  match input with
  | .request r =>
      buildRequestFinish r (hGet r.headers "Content-Type") parsedDefaultHeaders none
  | .url u =>
      let init := init0.getD {}
      let requestHeaders := init.headers.getD []
      buildRequestFinish ⟨getRequestUrl baseUrl u, requestHeaders⟩
        (hGet requestHeaders "Content-Type") parsedDefaultHeaders init.body

/-! ## Promises, interceptors and the pipeline -/

/-- A response value, projected onto its `ok` flag plus an identifying
payload. -/
structure ResponseM where
  ok : Bool
  tag : String
  deriving DecidableEq

/-- A JavaScript value flowing through the interceptor promise chains:
a `Request`, a `Response`, an `Error` object, or any other value. -/
inductive JsVal where
  | req (r : RequestM)
  | resp (r : ResponseM)
  | error (msg : String)
  | str (s : String)
  deriving DecidableEq

/-- The settlement of a promise. -/
inductive Outcome where
  | resolved (v : JsVal)
  | rejected (v : JsVal)
  deriving DecidableEq

/-- `promise.then(onResolved, onRejected)` on a settled promise; a handler
that throws is modelled by returning a rejected outcome. -/
def Outcome.thenBoth (o : Outcome) (onResolved onRejected : JsVal → Outcome) : Outcome :=
  match o with
  | .resolved v => onResolved v
  | .rejected v => onRejected v

/-- `identity(x) { return x; }` used as a resolve handler. -/
def identity (x : JsVal) : Outcome := .resolved x

/-- `thrower(x) { throw x; }` used as a reject handler. -/
def thrower (x : JsVal) : Outcome := .rejected x

/-- An interceptor: up to four optional handlers.  The response-phase
handlers receive the current request as a second argument. -/
structure InterceptorM where
  request : Option (JsVal → Outcome) := none
  requestError : Option (JsVal → Outcome) := none
  response : Option (JsVal → RequestM → Outcome) := none
  responseError : Option (JsVal → RequestM → Outcome) := none

/-- `applyInterceptors`: reduce the interceptor list left-to-right into a
promise chain seeded with `input`; a missing success handler is `identity`,
a missing error handler is `thrower`.  The handler selectors play the role
of the `successName`/`errorName` property names. -/
def applyInterceptors (input : Outcome)
    (getSuccess getError : InterceptorM → Option (JsVal → Outcome)) :
    List InterceptorM → Outcome
  | [] => input
  | i :: rest =>
      applyInterceptors
        (input.thenBoth ((getSuccess i).getD identity) ((getError i).getD thrower))
        getSuccess getError rest

def processRequest (request : Outcome) (interceptors : List InterceptorM) : Outcome :=
  applyInterceptors request (fun i => i.request) (fun i => i.requestError) interceptors

/-- `processResponse`: the interceptor's `response`/`responseError` handlers
are invoked with the request as extra argument. -/
def processResponse (response : Outcome) (interceptors : List InterceptorM)
    (request : RequestM) : Outcome :=
  applyInterceptors response
    (fun i => i.response.map fun f v => f v request)
    (fun i => i.responseError.map fun f v => f v request)
    interceptors

/-! ## The HttpClient -/

/-- `HttpClient` instance state.  `baseUrl : Option String` because
`configure` can leave the field `undefined`; `defaults` starts out `null`. -/
structure HttpClient where
  activeRequestCount : Int := 0
  isRequesting : Bool := false
  isConfigured : Bool := false
  baseUrl : Option String := some ""
  defaults : Option DefaultsRec := none
  interceptors : List InterceptorM := []

def initialClient : HttpClient := {}

/-- `this.isRequesting = !!(++this.activeRequestCount)` -/
def trackRequestStart (c : HttpClient) : HttpClient :=
  { c with activeRequestCount := c.activeRequestCount + 1,
           isRequesting := c.activeRequestCount + 1 != 0 }

/-- `this.isRequesting = !!(--this.activeRequestCount)` -/
def trackRequestEnd (c : HttpClient) : HttpClient :=
  { c with activeRequestCount := c.activeRequestCount - 1,
           isRequesting := c.activeRequestCount - 1 != 0 }

/-- `trackRequestEndWith(promise)`: `promise.then(handle, handle)` runs the
decrement when the promise settles (which, in this settled model, it always
does) and returns the original promise unchanged. -/
def trackRequestEndWith (c : HttpClient) (promise : Outcome) : HttpClient × Outcome :=
  (trackRequestEnd c, promise)

/-- The template-literal rendering of a value in the invalid-result error. -/
def jsValToString : JsVal → String
  | .req _ => "[object Request]"
  | .resp _ => "[object Response]"
  | .error m => "Error: " ++ m
  | .str s => s

def invalidResultMsg (v : JsVal) : String :=
  "An invalid result was returned by the interceptor chain. Expected a Request or Response instance, but got [" ++ jsValToString v ++ "]"

/-- The promise built inside `HttpClient.fetch` (everything between the two
tracking calls): build the request, run the request-interceptor phase, then
dispatch on the emerging value — a `Response` short-circuits the transport,
a `Request` is passed to the transport, anything else throws — and run the
response-interceptor phase with the current request. -/
def fetchOutcome (transport : RequestM → Outcome) (c : HttpClient)
    (input : FetchInput) (init : Option InitArg) : Outcome :=
  let builtRequest := buildRequest c.baseUrl c.defaults input init
  (processRequest (.resolved (.req builtRequest)) c.interceptors).thenBoth
    (fun result =>
      match result with
      | .resp r => processResponse (.resolved (.resp r)) c.interceptors builtRequest
      | .req r2 => processResponse (transport r2) c.interceptors r2
      | v => .rejected (.error (invalidResultMsg v)))
    thrower

/-- `HttpClient.fetch(input, init)`, with the global `fetch` transport passed
explicitly.  Returns the client state after the returned promise settled,
together with that settlement. -/
def HttpClient.fetch (transport : RequestM → Outcome) (c : HttpClient)
    (input : FetchInput) (init : Option InitArg) : HttpClient × Outcome :=
  let c1 := trackRequestStart c
  trackRequestEndWith c1 (fetchOutcome transport c1 input init)

/-! ## HttpClientConfiguration and HttpClient.configure -/

/-- An `HttpClientConfiguration`-shaped object.  Plain objects produced by
`configure` may lack fields (`none` = `undefined`); the real constructor
initialises all three. -/
structure HttpClientConfiguration where
  baseUrl : Option String := some ""
  defaults : Option DefaultsRec := some {}
  interceptors : Option (List InterceptorM) := some []

/-- `withInterceptor(interceptor)`: push onto the interceptor list. -/
def HttpClientConfiguration.withInterceptor (c : HttpClientConfiguration)
    (i : InterceptorM) : HttpClientConfiguration :=
  { c with interceptors := some ((c.interceptors.getD []) ++ [i]) }

/-- `response.ok` with JS member access: `undefined` (falsy) on a
non-`Response` value. -/
def jsRespOk : JsVal → Bool
  | .resp r => r.ok
  | _ => false

/-- `rejectOnError(response)`: `if (!response.ok) { throw response; }`. -/
def rejectOnError (response : JsVal) : Outcome :=
  if !jsRespOk response then .rejected response else .resolved response

/-- The interceptor `{ response: rejectOnError }` installed by
`rejectErrorResponses` (the extra request argument is ignored, as a JS
one-parameter function ignores extra arguments). -/
def rejectOnErrorInterceptor : InterceptorM :=
  { response := some fun v _ => rejectOnError v }

/-- `rejectErrorResponses()` of the standard preset. -/
def HttpClientConfiguration.rejectErrorResponses (c : HttpClientConfiguration) :
    HttpClientConfiguration :=
  c.withInterceptor rejectOnErrorInterceptor

/-- The argument of `configure`, classified the way `typeof` does:
a value of object type (`null` included — `typeof null === 'object'`),
a function, or any other value.  A callback receives the seeded
configuration and is modelled by the pair (configuration after mutation,
returned value when it is a recognizable configuration instance). -/
inductive ConfigArg where
  | obj (d : Option DefaultsRec)
  | func (f : HttpClientConfiguration →
        HttpClientConfiguration × Option HttpClientConfiguration)
  | prim (s : String)

/-- The normalization half of `configure`: wrap a plain object as
`{ defaults: config }` (its `baseUrl` and `interceptors` are `undefined`),
or seed a fresh configuration with the client's current state, hand it to
the callback and keep a returned configuration instance.  `none` for an
argument of invalid type. -/
def normalizeConfig (c : HttpClient) : ConfigArg → Option HttpClientConfiguration
  | .obj d => some { baseUrl := none, defaults := d, interceptors := none }
  | .func f =>
      let seed : HttpClientConfiguration :=
        { baseUrl := c.baseUrl,
          defaults := some (c.defaults.getD {}),
          interceptors := some c.interceptors }
      let res := f seed
      some (res.2.getD res.1)
  | .prim _ => none

/-- `defaults && Headers.prototype.isPrototypeOf(defaults.headers)`. -/
def headersIsInstance : Option DefaultsRec → Bool
  | some d =>
      match d.headers with
      | some (.inst _) => true
      | _ => false
  | none => false

/-- `HttpClient.configure(config)`: returns the client state after the call
together with `some message` when the call throws (both throws happen
before any assignment to the client's fields). -/
def HttpClient.configure (c : HttpClient) (arg : ConfigArg) :
    HttpClient × Option String :=
  match normalizeConfig c arg with
  | none => (c, some "invalid config")
  | some nc =>
      if headersIsInstance nc.defaults then
        (c, some "Default headers must be a plain object.")
      else
        ({ c with
            baseUrl := nc.baseUrl,
            defaults := nc.defaults,
            interceptors := nc.interceptors.getD [],
            isConfigured := true }, none)

/-! ## Auxiliary definitions used by the claim statements -/

/-- The built request of a `fetch` call on a given client. -/
def builtRequestOf (c : HttpClient) (input : FetchInput) (init : Option InitArg) :
    RequestM :=
  buildRequest c.baseUrl c.defaults input init

def concatAll : List String → String
  | [] => ""
  | l :: ls => l ++ concatAll ls

/-- Append a trace label to a string-valued chain value (observing
invocation order). -/
def appendTag (l : String) : JsVal → JsVal
  | .str s => .str (s ++ l)
  | v => v

/-- A request interceptor that records its label on the chain value. -/
def tagRequestInterceptor (l : String) : InterceptorM :=
  { request := some fun v => .resolved (appendTag l v) }

/-- A response interceptor that records its label on the chain value. -/
def tagResponseInterceptor (l : String) : InterceptorM :=
  { response := some fun v _ => .resolved (appendTag l v) }

/-- One counter event of some in-flight `fetch` call: its start increment or
its settlement decrement.  A set of concurrent calls is an arbitrary
interleaving of such events on the single execution thread. -/
inductive TrackEvent where
  | start
  | settle
  deriving DecidableEq

def applyTrackEvent (c : HttpClient) : TrackEvent → HttpClient
  | .start => trackRequestStart c
  | .settle => trackRequestEnd c

def applyTrackEvents (c : HttpClient) : List TrackEvent → HttpClient
  | [] => c
  | e :: es => applyTrackEvents (applyTrackEvent c e) es

def countStarts : List TrackEvent → Int
  | [] => 0
  | .start :: es => countStarts es + 1
  | .settle :: es => countStarts es

def countSettles : List TrackEvent → Int
  | [] => 0
  | .start :: es => countSettles es
  | .settle :: es => countSettles es + 1

/-- Following the spec's words: the `configure` argument is a plain
default-options object (so in particular not `null`). -/
def specIsPlainDefaultsObject : ConfigArg → Bool
  | .obj (some _) => true
  | _ => false

/-- Following the spec's words: the `configure` argument is a callback. -/
def specIsConfigCallback : ConfigArg → Bool
  | .func _ => true
  | _ => false

/-- The argument's `typeof` is neither `'object'` nor `'function'`. -/
def typeofIsNeither : ConfigArg → Bool
  | .prim _ => true
  | _ => false

/-- A concrete response used to exercise the short-circuit dispatch. -/
def wResponse : ResponseM := ⟨true, "short-circuit"⟩

/-- A request interceptor returning a response directly. -/
def shortCircuitInterceptor : InterceptorM :=
  { request := some fun _ => .resolved (.resp wResponse) }

def wClient : HttpClient := { interceptors := [shortCircuitInterceptor] }

/-- A transport whose result is recognizable, to observe that it is never
consulted. -/
def wTransport : RequestM → Outcome :=
  fun _ => .rejected (.error "network failure")

/-! ## Lemmas about the header model -/

theorem headerNameMatches_iff {a b : String} :
    headerNameMatches a b = true ↔ lowerStr a = lowerStr b := by
  simp [headerNameMatches]

theorem headerNameMatches_eq_false_iff {a b : String} :
    headerNameMatches a b = false ↔ lowerStr a ≠ lowerStr b := by
  simp [headerNameMatches]

theorem headerNameMatches_congr (p : String) {n m : String}
    (e : lowerStr n = lowerStr m) :
    headerNameMatches p n = headerNameMatches p m := by
  simp [headerNameMatches, e]

theorem hValues_cons_true {p : String × String} {t : HeaderList} {n : String}
    (hc : headerNameMatches p.1 n = true) :
    hValues (p :: t) n = p.2 :: hValues t n := by
  simp [hValues, List.filter_cons, hc]

theorem hValues_cons_false {p : String × String} {t : HeaderList} {n : String}
    (hc : headerNameMatches p.1 n = false) :
    hValues (p :: t) n = hValues t n := by
  simp [hValues, List.filter_cons, hc]

theorem hDelete_cons_true {p : String × String} {t : HeaderList} {m : String}
    (hc : headerNameMatches p.1 m = true) :
    hDelete (p :: t) m = hDelete t m := by
  simp [hDelete, List.filter_cons, hc]

theorem hDelete_cons_false {p : String × String} {t : HeaderList} {m : String}
    (hc : headerNameMatches p.1 m = false) :
    hDelete (p :: t) m = p :: hDelete t m := by
  simp [hDelete, List.filter_cons, hc]

theorem hHas_congr (h : HeaderList) {n m : String} (e : lowerStr n = lowerStr m) :
    hHas h n = hHas h m := by
  simp only [hHas, headerNameMatches, e]

theorem hValues_congr (h : HeaderList) {n m : String} (e : lowerStr n = lowerStr m) :
    hValues h n = hValues h m := by
  simp only [hValues, headerNameMatches, e]

theorem hGet_congr (h : HeaderList) {n m : String} (e : lowerStr n = lowerStr m) :
    hGet h n = hGet h m := by
  simp only [hGet, hValues_congr h e]

theorem hHas_eq_false_iff (h : HeaderList) (n : String) :
    hHas h n = false ↔ hValues h n = [] := by
  induction h with
  | nil => simp [hHas, hValues]
  | cons p t ih =>
      cases hc : headerNameMatches p.1 n with
      | true => simp [hHas, hValues, List.filter_cons, hc]
      | false =>
          rw [show hHas (p :: t) n = hHas t n by simp [hHas, hc],
            show hValues (p :: t) n = hValues t n from hValues_cons_false hc]
          exact ih

theorem hHas_eq_true_iff (h : HeaderList) (n : String) :
    hHas h n = true ↔ hValues h n ≠ [] := by
  cases hb : hHas h n with
  | false => simp [(hHas_eq_false_iff h n).mp hb]
  | true =>
      simp only [true_iff]
      intro hnil
      have hfalse := (hHas_eq_false_iff h n).mpr hnil
      rw [hb] at hfalse
      exact Bool.noConfusion hfalse

theorem hGet_eq_none_iff (h : HeaderList) (n : String) :
    hGet h n = none ↔ hHas h n = false := by
  rw [hHas_eq_false_iff]
  cases hv : hValues h n <;> simp [hGet, combineValues, hv]

theorem hHas_of_mem {h : HeaderList} {n v : String} (mem : (n, v) ∈ h) :
    hHas h n = true := by
  simp only [hHas, List.any_eq_true]
  exact ⟨(n, v), mem, headerNameMatches_iff.mpr rfl⟩

theorem hValues_append (h1 h2 : HeaderList) (n : String) :
    hValues (h1 ++ h2) n = hValues h1 n ++ hValues h2 n := by
  simp [hValues, List.filter_append]

theorem hValues_eq_nil_of_not_mem (t : HeaderList) (m : String)
    (hx : lowerStr m ∉ t.map fun p => lowerStr p.1) : hValues t m = [] := by
  induction t with
  | nil => rfl
  | cons p t ih =>
      simp only [List.map_cons, List.mem_cons] at hx
      push_neg at hx
      have hm : headerNameMatches p.1 m = false :=
        headerNameMatches_eq_false_iff.mpr fun e => hx.1 e.symm
      simpa [hValues, List.filter_cons, hm] using ih hx.2

theorem hValues_hDelete_same (h : HeaderList) {m n : String}
    (e : lowerStr n = lowerStr m) : hValues (hDelete h m) n = [] := by
  induction h with
  | nil => rfl
  | cons p t ih =>
      cases hc : headerNameMatches p.1 m with
      | true => simpa [hDelete, hValues, List.filter_cons, hc] using ih
      | false =>
          have hc' : headerNameMatches p.1 n = false := by
            rw [headerNameMatches_congr p.1 e]; exact hc
          simpa [hDelete, hValues, List.filter_cons, hc, hc'] using ih

theorem hValues_hDelete_other (h : HeaderList) {m n : String}
    (e : lowerStr n ≠ lowerStr m) : hValues (hDelete h m) n = hValues h n := by
  induction h with
  | nil => rfl
  | cons p t ih =>
      cases hc : headerNameMatches p.1 m with
      | true =>
          have hp : lowerStr p.1 = lowerStr m := headerNameMatches_iff.mp hc
          have hc' : headerNameMatches p.1 n = false :=
            headerNameMatches_eq_false_iff.mpr fun e' => e ((hp ▸ e').symm)
          rw [hDelete_cons_true hc, hValues_cons_false hc', ih]
      | false =>
          cases hc' : headerNameMatches p.1 n with
          | true =>
              rw [hDelete_cons_false hc, hValues_cons_true hc',
                hValues_cons_true hc', ih]
          | false =>
              rw [hDelete_cons_false hc, hValues_cons_false hc',
                hValues_cons_false hc', ih]

theorem hValues_hSet_same (h : HeaderList) {m n : String} (v : String)
    (e : lowerStr n = lowerStr m) : hValues (hSet h m v) n = [v] := by
  have hm : headerNameMatches m n = true := headerNameMatches_iff.mpr e.symm
  rw [hSet, hValues_append, hValues_hDelete_same h e]
  simp [hValues, List.filter_cons, hm]

theorem hValues_hSet_other (h : HeaderList) {m n : String} (v : String)
    (e : lowerStr n ≠ lowerStr m) : hValues (hSet h m v) n = hValues h n := by
  have hm : headerNameMatches m n = false :=
    headerNameMatches_eq_false_iff.mpr fun e' => e e'.symm
  rw [hSet, hValues_append, hValues_hDelete_other h e]
  simp [hValues, List.filter_cons, hm]

theorem hGet_hSet_same (h : HeaderList) {m n : String} (v : String)
    (e : lowerStr n = lowerStr m) : hGet (hSet h m v) n = some v := by
  simp [hGet, hValues_hSet_same h v e, combineValues]

theorem hGet_hSet_other (h : HeaderList) {m n : String} (v : String)
    (e : lowerStr n ≠ lowerStr m) : hGet (hSet h m v) n = hGet h n := by
  simp [hGet, hValues_hSet_other h v e]

theorem hHas_hSet_same (h : HeaderList) {m n : String} (v : String)
    (e : lowerStr n = lowerStr m) : hHas (hSet h m v) n = true := by
  rw [hHas_eq_true_iff, hValues_hSet_same h v e]
  simp

theorem hHas_hSet_other (h : HeaderList) {m n : String} (v : String)
    (e : lowerStr n ≠ lowerStr m) : hHas (hSet h m v) n = hHas h n := by
  cases hb : hHas h n with
  | true =>
      rw [hHas_eq_true_iff, hValues_hSet_other h v e]
      exact (hHas_eq_true_iff h n).mp hb
  | false =>
      rw [hHas_eq_false_iff, hValues_hSet_other h v e]
      exact (hHas_eq_false_iff h n).mp hb

theorem hGet_of_mem_nodup (h : HeaderList) :
    ∀ {n v m : String}, (h.map fun p => lowerStr p.1).Nodup → (n, v) ∈ h →
      lowerStr m = lowerStr n → hGet h m = some v := by
  induction h with
  | nil => intro n v m _ mem _; cases mem
  | cons d t ih =>
      intro n v m nd mem e
      obtain ⟨a, w⟩ := d
      simp only [List.map_cons, List.nodup_cons] at nd
      rcases List.mem_cons.mp mem with heq | htail
      · injection heq with e1 e2
        subst e1; subst e2
        have hm : headerNameMatches n m = true :=
          headerNameMatches_iff.mpr e.symm
        have htv : hValues t m = [] := by
          apply hValues_eq_nil_of_not_mem
          rw [show lowerStr m = lowerStr n from e]
          exact nd.1
        rw [hGet, hValues_cons_true hm, htv]
        rfl
      · have hmem_low : lowerStr n ∈ t.map fun p => lowerStr p.1 :=
          List.mem_map_of_mem _ htail
        have hne : lowerStr a ≠ lowerStr m := by
          intro e'
          exact nd.1 ((e'.trans e) ▸ hmem_low)
        have ha : headerNameMatches a m = false :=
          headerNameMatches_eq_false_iff.mpr hne
        have := ih nd.2 htail e
        rw [hGet, hValues_cons_false ha]
        exact this

/-! ## Lemmas about setDefaultHeaders -/

theorem setDefaultHeaders_preserves (ds : HeaderList) :
    ∀ (h : HeaderList) (n : String), hHas h n = true →
      hGet (setDefaultHeaders h ds) n = hGet h n ∧
        hHas (setDefaultHeaders h ds) n = true := by
  induction ds with
  | nil => intro h n hp; exact ⟨rfl, hp⟩
  | cons d ds ih =>
      intro h n hp
      obtain ⟨m, w⟩ := d
      cases hm : hHas h m with
      | true => simpa [setDefaultHeaders, hm] using ih h n hp
      | false =>
          have hne : lowerStr n ≠ lowerStr m := by
            intro e
            rw [hHas_congr h e] at hp
            rw [hp] at hm
            exact Bool.noConfusion hm
          have h2 := ih (hSet h m w) n (by rw [hHas_hSet_other h w hne]; exact hp)
          rw [hGet_hSet_other h w hne] at h2
          simpa [setDefaultHeaders, hm] using h2

theorem setDefaultHeaders_adds (ds : HeaderList) :
    ∀ (h : HeaderList) (n v : String),
      (ds.map fun p => lowerStr p.1).Nodup → (n, v) ∈ ds → hHas h n = false →
      hGet (setDefaultHeaders h ds) n = some v := by
  induction ds with
  | nil => intro h n v _ mem _; cases mem
  | cons d ds ih =>
      intro h n v nd mem ab
      obtain ⟨m, w⟩ := d
      simp only [List.map_cons, List.nodup_cons] at nd
      rcases List.mem_cons.mp mem with heq | htail
      · injection heq with e1 e2
        subst e1; subst e2
        have hpres :=
          setDefaultHeaders_preserves ds (hSet h n v) n (hHas_hSet_same h v rfl)
        rw [hGet_hSet_same h v rfl] at hpres
        simpa [setDefaultHeaders, ab] using hpres.1
      · have hmem_low : lowerStr n ∈ ds.map fun p => lowerStr p.1 :=
          List.mem_map_of_mem _ htail
        have hne : lowerStr n ≠ lowerStr m := fun e => nd.1 (e ▸ hmem_low)
        cases hm : hHas h m with
        | true => simpa [setDefaultHeaders, hm] using ih h n v nd.2 htail ab
        | false =>
            have ab' : hHas (hSet h m w) n = false := by
              rw [hHas_hSet_other h w hne]; exact ab
            simpa [setDefaultHeaders, hm] using ih (hSet h m w) n v nd.2 htail ab'

/-! ## Lemmas about the content-type stages of buildRequest -/

theorem lowerStr_ContentType : lowerStr "Content-Type" = "content-type" := by decide

theorem lowerStr_contenttype : lowerStr "content-type" = "content-type" := by decide

theorem backfillContentType_other (h : HeaderList) (rct : Option String)
    (D : HeaderList) {n : String} (hn : lowerStr n ≠ "content-type") :
    hGet (backfillContentType h rct D) n = hGet h n ∧
      hHas (backfillContentType h rct D) n = hHas h n := by
  have hne : lowerStr n ≠ lowerStr "Content-Type" := by
    rw [lowerStr_ContentType]; exact hn
  unfold backfillContentType
  split
  · exact ⟨hGet_hSet_other h _ hne, hHas_hSet_other h _ hne⟩
  · exact ⟨rfl, rfl⟩

theorem applyBlobType_other (body : Option BodyVal) (h : HeaderList) {n : String}
    (hn : lowerStr n ≠ "content-type") :
    hGet (applyBlobType body h) n = hGet h n := by
  have hne : lowerStr n ≠ lowerStr "Content-Type" := by
    rw [lowerStr_ContentType]; exact hn
  unfold applyBlobType
  cases hb : blobContentType body with
  | none => rfl
  | some t => exact hGet_hSet_other h t hne

theorem applyBlobType_none (body : Option BodyVal) (h : HeaderList)
    (hb : blobContentType body = none) : applyBlobType body h = h := by
  unfold applyBlobType
  rw [hb]

/-- `buildRequest` in the URL branch, unfolded to its stages. -/
theorem buildRequest_url_eq (b : Option String) (defs : DefaultsRec) (u : String)
    (init : InitArg) :
    buildRequest b (some defs) (.url u) (some init) =
      buildRequestFinish ⟨getRequestUrl b u, init.headers.getD []⟩
        (hGet (init.headers.getD []) "Content-Type")
        (parseHeaderValues defs.headers) init.body := rfl

theorem buildRequestFinish_adds (H0 D : HeaderList) (body : Option BodyVal)
    (u : String) (n v : String)
    (nd : (D.map fun p => lowerStr p.1).Nodup) (mem : (n, v) ∈ D)
    (ab : hHas H0 n = false)
    (hb : blobContentType body = none ∨ lowerStr n ≠ "content-type") :
    hGet (buildRequestFinish ⟨u, H0⟩ (hGet H0 "Content-Type") D body).headers n
      = some v := by
  show hGet (applyBlobType body
      (setDefaultHeaders (backfillContentType H0 (hGet H0 "Content-Type") D) D)) n
    = some v
  by_cases hct : lowerStr n = "content-type"
  · have hbnone : blobContentType body = none := by
      rcases hb with hb | hb
      · exact hb
      · exact absurd hct hb
    have e1 : lowerStr "Content-Type" = lowerStr n := by
      rw [lowerStr_ContentType, hct]
    have e2 : lowerStr "content-type" = lowerStr n := by
      rw [lowerStr_contenttype, hct]
    have h0ct : hHas H0 "Content-Type" = false := by
      rw [hHas_congr H0 e1]; exact ab
    have hrct : hGet H0 "Content-Type" = none :=
      (hGet_eq_none_iff H0 "Content-Type").mpr h0ct
    have hDct : hHas D "content-type" = true := by
      rw [hHas_congr D e2]; exact hHas_of_mem mem
    have hDv : hGet D "content-type" = some v := hGet_of_mem_nodup D nd mem e2
    have hback : backfillContentType H0 (hGet H0 "Content-Type") D
        = hSet H0 "Content-Type" v := by
      unfold backfillContentType
      rw [hrct, hDct, hDv]
      simp [jsStrFalsy]
    rw [hback, applyBlobType_none body _ hbnone]
    have e3 : lowerStr n = lowerStr "Content-Type" := e1.symm
    have hpres :=
      setDefaultHeaders_preserves D (hSet H0 "Content-Type" v) n
        (hHas_hSet_same H0 v e3)
    rw [hpres.1, hGet_hSet_same H0 v e3]
  · have hback := backfillContentType_other H0 (hGet H0 "Content-Type") D hct
    rw [applyBlobType_other body _ hct]
    have ab1 : hHas (backfillContentType H0 (hGet H0 "Content-Type") D) n = false := by
      rw [hback.2]; exact ab
    exact setDefaultHeaders_adds D _ n v nd mem ab1

theorem buildRequestFinish_keeps (H0 D : HeaderList) (body : Option BodyVal)
    (u : String) (n : String)
    (hp : hHas H0 n = true)
    (hb : blobContentType body = none ∨ lowerStr n ≠ "content-type")
    (hfal : lowerStr n = "content-type" →
      jsStrFalsy (hGet H0 "Content-Type") = false) :
    hGet (buildRequestFinish ⟨u, H0⟩ (hGet H0 "Content-Type") D body).headers n
      = hGet H0 n := by
  show hGet (applyBlobType body
      (setDefaultHeaders (backfillContentType H0 (hGet H0 "Content-Type") D) D)) n
    = hGet H0 n
  by_cases hct : lowerStr n = "content-type"
  · have hbnone : blobContentType body = none := by
      rcases hb with hb | hb
      · exact hb
      · exact absurd hct hb
    have hback : backfillContentType H0 (hGet H0 "Content-Type") D = H0 := by
      unfold backfillContentType
      rw [hfal hct]
      simp
    rw [hback, applyBlobType_none body _ hbnone]
    exact (setDefaultHeaders_preserves D H0 n hp).1
  · have hback := backfillContentType_other H0 (hGet H0 "Content-Type") D hct
    rw [applyBlobType_other body _ hct]
    have hp1 : hHas (backfillContentType H0 (hGet H0 "Content-Type") D) n = true := by
      rw [hback.2]; exact hp
    rw [(setDefaultHeaders_preserves D _ n hp1).1, hback.1]

theorem buildRequestFinish_blob (H0 D : HeaderList) (body : Option BodyVal)
    (u : String) (t : String) (hb : blobContentType body = some t) :
    hGet (buildRequestFinish ⟨u, H0⟩ (hGet H0 "Content-Type") D body).headers
      "Content-Type" = some t := by
  show hGet (applyBlobType body
      (setDefaultHeaders (backfillContentType H0 (hGet H0 "Content-Type") D) D))
      "Content-Type" = some t
  unfold applyBlobType
  rw [hb]
  exact hGet_hSet_same _ t rfl

/-! ## Claim C2 -/

/-- C2, counterexample: a header explicitly set at call time CAN be
overwritten by a default header.  With default headers
`{content-type: "application/json"}` and the call-time header
`Content-Type` explicitly set to the empty string, the built request
carries `application/json`: the backfill treats the falsy empty-string
value as a missing content type and replaces it. -/
theorem buildRequest_overwrites_empty_contentType :
    hHas [("Content-Type", "")] "Content-Type" = true ∧
    hGet [("Content-Type", "")] "Content-Type" = some "" ∧
    hGet (buildRequest (some "")
        (some { headers := some (.plain [("content-type", .str "application/json")]) })
        (.url "/x")
        (some { headers := some [("Content-Type", "")], body := none })).headers
        "Content-Type" = some "application/json" ∧
    (some "application/json" : Option String) ≠ some "" := by
  exact ⟨by decide, by decide, by decide, by decide⟩

/-- C2, amended: for a fetch call built from a URL plus options (with the
parsed default-header names pairwise distinct case-insensitively), (1) each
default header whose name is absent from the call-time headers is added to
the built request with its default value — except that a typed Blob body
overrides a default `Content-Type`; (2) a header explicitly set at call
time is never overwritten by a default header, unless it is a
`Content-Type` with the (falsy) empty-string value, which the backfill
treats as missing; (3) a typed Blob body forces `Content-Type` to the
Blob's declared type (a value coming from the body, not from the default
headers). -/
theorem buildRequest_default_headers (b : Option String) (defs : DefaultsRec)
    (u : String) (init : InitArg) :
    (∀ n v, ((parseHeaderValues defs.headers).map fun p => lowerStr p.1).Nodup →
      (n, v) ∈ parseHeaderValues defs.headers →
      hHas (init.headers.getD []) n = false →
      (blobContentType init.body = none ∨ lowerStr n ≠ "content-type") →
      hGet (buildRequest b (some defs) (.url u) (some init)).headers n = some v) ∧
    (∀ n, hHas (init.headers.getD []) n = true →
      (blobContentType init.body = none ∨ lowerStr n ≠ "content-type") →
      (lowerStr n = "content-type" →
        jsStrFalsy (hGet (init.headers.getD []) "Content-Type") = false) →
      hGet (buildRequest b (some defs) (.url u) (some init)).headers n
        = hGet (init.headers.getD []) n) ∧
    (∀ t, blobContentType init.body = some t →
      hGet (buildRequest b (some defs) (.url u) (some init)).headers "Content-Type"
        = some t) := by
  refine ⟨?_, ?_, ?_⟩
  · intro n v nd mem ab hb
    rw [buildRequest_url_eq]
    exact buildRequestFinish_adds (init.headers.getD [])
      (parseHeaderValues defs.headers) init.body (getRequestUrl b u) n v nd mem ab hb
  · intro n hp hb hfal
    rw [buildRequest_url_eq]
    exact buildRequestFinish_keeps (init.headers.getD [])
      (parseHeaderValues defs.headers) init.body (getRequestUrl b u) n hp hb hfal
  · intro t hb
    rw [buildRequest_url_eq]
    exact buildRequestFinish_blob (init.headers.getD [])
      (parseHeaderValues defs.headers) init.body (getRequestUrl b u) t hb

/-- C2 witness: the amended theorem applied at concrete inputs — a default
`x-token` header is added, a call-time `Accept` header is kept verbatim,
and a typed Blob body forces the content type. -/
theorem buildRequest_default_headers_witness :
    hGet (buildRequest (some "/api/")
        (some { headers := some (.plain
          [("x-token", .str "t"), ("content-type", .str "application/json")]) })
        (.url "users")
        (some { headers := some [("Accept", "text/html")], body := none })).headers
        "x-token" = some "t" ∧
    hGet (buildRequest (some "/api/")
        (some { headers := some (.plain
          [("x-token", .str "t"), ("content-type", .str "application/json")]) })
        (.url "users")
        (some { headers := some [("Accept", "text/html")], body := none })).headers
        "Accept" = hGet [("Accept", "text/html")] "Accept" ∧
    hGet (buildRequest (some "/api/")
        (some { headers := some (.plain [("x-token", .str "t")]) })
        (.url "users")
        (some { headers := none, body := some (.blob "image/png") })).headers
        "Content-Type" = some "image/png" := by
  refine ⟨?_, ?_, ?_⟩
  · exact (buildRequest_default_headers (some "/api/") _ "users" _).1
      "x-token" "t" (by decide) (by decide) (by decide) (Or.inl (by decide))
  · exact (buildRequest_default_headers (some "/api/") _ "users" _).2.1
      "Accept" (by decide) (Or.inl (by decide)) (fun hh => absurd hh (by decide))
  · exact (buildRequest_default_headers (some "/api/") _ "users" _).2.2
      "image/png" (by decide)

/-! ## Claim C1: the absolute-URL pattern and getRequestUrl -/

theorem startsWithDoubleSlash_iff (s : List Char) :
    startsWithDoubleSlash s = true ↔ ∃ t, s = '/' :: '/' :: t := by
  cases s with
  | nil => simp [startsWithDoubleSlash]
  | cons a s =>
      cases s with
      | nil => simp [startsWithDoubleSlash]
      | cons b t =>
          simp only [startsWithDoubleSlash, Bool.and_eq_true, beq_iff_eq]
          constructor
          · rintro ⟨rfl, rfl⟩
            exact ⟨t, rfl⟩
          · rintro ⟨t', ht⟩
            obtain ⟨e1, e2, _⟩ : a = '/' ∧ b = '/' ∧ t = t' := by
              simpa using ht
            exact ⟨e1, e2⟩

theorem schemeRest_iff (cs : List Char) :
    schemeRest cs = true ↔
      ∃ pre t, cs = pre ++ ':' :: '/' :: '/' :: t ∧
        ∀ d ∈ pre, isSchemeChar d = true := by
  induction cs with
  | nil =>
      simp only [schemeRest, Bool.false_eq_true, false_iff]
      rintro ⟨pre, t, h, -⟩
      cases pre <;> simp at h
  | cons c cs ih =>
      cases hc : (c == ':') with
      | true =>
          have hceq : c = ':' := by simpa using hc
          subst hceq
          rw [show schemeRest (':' :: cs) = startsWithDoubleSlash cs by
            simp [schemeRest]]
          rw [startsWithDoubleSlash_iff]
          constructor
          · rintro ⟨t, rfl⟩
            exact ⟨[], t, rfl, by simp⟩
          · rintro ⟨pre, t, h, hall⟩
            cases pre with
            | nil =>
                refine ⟨t, ?_⟩
                simpa using h
            | cons p pre' =>
                obtain ⟨hp, -⟩ : ':' = p ∧ cs = pre' ++ ':' :: '/' :: '/' :: t := by
                  simpa using h
                have hpc : isSchemeChar p = true := hall p (by simp)
                rw [← hp] at hpc
                exact absurd hpc (by decide)
      | false =>
          have hcne : ¬ c = ':' := by simpa using hc
          cases hs : isSchemeChar c with
          | true =>
              rw [show schemeRest (c :: cs) = schemeRest cs by
                simp [schemeRest, hc, hs]]
              rw [ih]
              constructor
              · rintro ⟨pre, t, rfl, hall⟩
                refine ⟨c :: pre, t, rfl, ?_⟩
                intro d hd
                rcases List.mem_cons.mp hd with rfl | hd
                · exact hs
                · exact hall d hd
              · rintro ⟨pre, t, h, hall⟩
                cases pre with
                | nil =>
                    obtain ⟨hcc, -⟩ : c = ':' ∧ cs = '/' :: '/' :: t := by
                      simpa using h
                    exact absurd hcc hcne
                | cons p pre' =>
                    obtain ⟨rfl, h2⟩ : c = p ∧ cs = pre' ++ ':' :: '/' :: '/' :: t := by
                      simpa using h
                    exact ⟨pre', t, h2, fun d hd => hall d (List.mem_cons_of_mem _ hd)⟩
          | false =>
              rw [show schemeRest (c :: cs) = false by simp [schemeRest, hc, hs]]
              simp only [Bool.false_eq_true, false_iff]
              rintro ⟨pre, t, h, hall⟩
              cases pre with
              | nil =>
                  obtain ⟨hcc, -⟩ : c = ':' ∧ cs = '/' :: '/' :: t := by
                    simpa using h
                  exact hcne hcc
              | cons p pre' =>
                  obtain ⟨rfl, -⟩ : c = p ∧ cs = pre' ++ ':' :: '/' :: '/' :: t := by
                    simpa using h
                  have := hall c (by simp)
                  rw [this] at hs
                  exact Bool.noConfusion hs

theorem absoluteUrlRegexpTest_iff (s : List Char) :
    absoluteUrlRegexpTest s = true ↔
      (∃ t, s = '/' :: '/' :: t) ∨
      (∃ c pre t, s = c :: (pre ++ ':' :: '/' :: '/' :: t) ∧
        isSchemeFirst c = true ∧ ∀ d ∈ pre, isSchemeChar d = true) := by
  cases s with
  | nil =>
      simp only [absoluteUrlRegexpTest, Bool.false_eq_true, false_iff]
      rintro (⟨t, h⟩ | ⟨c, pre, t, h, -, -⟩) <;> simp at h
  | cons a s =>
      rw [show absoluteUrlRegexpTest (a :: s)
          = (startsWithDoubleSlash (a :: s) || (isSchemeFirst a && schemeRest s))
        from rfl]
      rw [Bool.or_eq_true, Bool.and_eq_true, startsWithDoubleSlash_iff, schemeRest_iff]
      constructor
      · rintro (⟨t, ht⟩ | ⟨hfirst, pre, t, hcs, hall⟩)
        · exact Or.inl ⟨t, ht⟩
        · exact Or.inr ⟨a, pre, t, by rw [hcs], hfirst, hall⟩
      · rintro (⟨t, ht⟩ | ⟨c, pre, t, hcs, hfirst, hall⟩)
        · exact Or.inl ⟨t, ht⟩
        · obtain ⟨rfl, hs2⟩ : a = c ∧ s = pre ++ ':' :: '/' :: '/' :: t := by
            simpa using hcs
          exact Or.inr ⟨hfirst, pre, t, hs2, hall⟩

/-- C1: for a request target matching the case-insensitive pattern
`^([a-z][a-z0-9+\-.]*:)?//` the resolved URL is the target unchanged (the
base URL is never prepended); for a non-matching target the resolved URL is
exactly the configured base URL (the empty string when unset) concatenated
with the target.  The last conjunct characterizes the pattern: the target
starts with `//`, or with an ASCII letter followed by scheme characters,
then `:` immediately followed by `//`. -/
theorem getRequestUrl_spec :
    (∀ (b : Option String) (url : String), absoluteUrlRegexpTest url.data = true →
      getRequestUrl b url = url) ∧
    (∀ (b : Option String) (url : String), absoluteUrlRegexpTest url.data = false →
      getRequestUrl b url = (b.getD "") ++ url) ∧
    (∀ s : List Char, absoluteUrlRegexpTest s = true ↔
      (∃ t, s = '/' :: '/' :: t) ∨
      (∃ c pre t, s = c :: (pre ++ ':' :: '/' :: '/' :: t) ∧
        isSchemeFirst c = true ∧ ∀ d ∈ pre, isSchemeChar d = true)) := by
  refine ⟨?_, ?_, absoluteUrlRegexpTest_iff⟩
  · intro b url h
    simp [getRequestUrl, h]
  · intro b url h
    simp [getRequestUrl, h]

/-- C1 witness: the theorem applied at concrete targets — an absolute URL
and a protocol-relative URL pass through untouched; relative targets get
the base (or the empty string when the base is unset) prepended. -/
theorem getRequestUrl_spec_witness :
    getRequestUrl (some "/api/") "https://host/p" = "https://host/p" ∧
    getRequestUrl (some "/api/") "//cdn/lib.js" = "//cdn/lib.js" ∧
    getRequestUrl (some "/api/") "users" = "/api/users" ∧
    getRequestUrl none "users" = "users" := by
  refine ⟨getRequestUrl_spec.1 (some "/api/") "https://host/p" (by decide),
    getRequestUrl_spec.1 (some "/api/") "//cdn/lib.js" (by decide),
    (getRequestUrl_spec.2.1 (some "/api/") "users" (by decide)).trans (by decide),
    (getRequestUrl_spec.2.1 none "users" (by decide)).trans (by decide)⟩

/-! ## Claim C5: missing handlers are transparent -/

/-- C5: for an interceptor in the chain, a missing `request`/`response`
handler passes the incoming value through unchanged in its phase, and a
missing `requestError`/`responseError` handler re-raises the incoming
rejection reason unchanged. -/
theorem missing_handlers_transparent (i : InterceptorM) (v : JsVal) (req : RequestM) :
    (i.request = none → processRequest (.resolved v) [i] = .resolved v) ∧
    (i.requestError = none → processRequest (.rejected v) [i] = .rejected v) ∧
    (i.response = none → processResponse (.resolved v) [i] req = .resolved v) ∧
    (i.responseError = none → processResponse (.rejected v) [i] req = .rejected v) := by
  refine ⟨?_, ?_, ?_, ?_⟩ <;> intro h <;>
    simp [processRequest, processResponse, applyInterceptors, h, Outcome.thenBoth,
      identity, thrower]

/-- C5 witness: the theorem applied to the interceptor with no handlers at
all, in all four positions. -/
theorem missing_handlers_transparent_witness :
    processRequest (.resolved (.str "x")) [{}] = .resolved (.str "x") ∧
    processRequest (.rejected (.str "x")) [{}] = .rejected (.str "x") ∧
    processResponse (.resolved (.str "x")) [{}] ⟨"u", []⟩ = .resolved (.str "x") ∧
    processResponse (.rejected (.str "x")) [{}] ⟨"u", []⟩ = .rejected (.str "x") := by
  have h := missing_handlers_transparent {} (.str "x") ⟨"u", []⟩
  exact ⟨h.1 rfl, h.2.1 rfl, h.2.2.1 rfl, h.2.2.2 rfl⟩

/-! ## Claim C6: interceptors run in registration order -/

theorem applyInterceptors_append (input : Outcome)
    (gs ge : InterceptorM → Option (JsVal → Outcome)) (is1 is2 : List InterceptorM) :
    applyInterceptors input gs ge (is1 ++ is2)
      = applyInterceptors (applyInterceptors input gs ge is1) gs ge is2 := by
  induction is1 generalizing input with
  | nil => rfl
  | cons i is1 ih => simp [applyInterceptors, ih]

theorem processRequest_tags (labels : List String) :
    ∀ s : String,
      processRequest (.resolved (.str s)) (labels.map tagRequestInterceptor)
        = .resolved (.str (s ++ concatAll labels)) := by
  induction labels with
  | nil => intro s; simp [processRequest, applyInterceptors, concatAll]
  | cons l ls ih =>
      intro s
      rw [List.map_cons,
        show processRequest (.resolved (.str s))
            (tagRequestInterceptor l :: ls.map tagRequestInterceptor)
          = processRequest (.resolved (.str (s ++ l))) (ls.map tagRequestInterceptor)
          from rfl,
        ih (s ++ l), concatAll, String.append_assoc]

theorem processResponse_tags (labels : List String) (req : RequestM) :
    ∀ s : String,
      processResponse (.resolved (.str s)) (labels.map tagResponseInterceptor) req
        = .resolved (.str (s ++ concatAll labels)) := by
  induction labels with
  | nil => intro s; simp [processResponse, applyInterceptors, concatAll]
  | cons l ls ih =>
      intro s
      rw [List.map_cons,
        show processResponse (.resolved (.str s))
            (tagResponseInterceptor l :: ls.map tagResponseInterceptor) req
          = processResponse (.resolved (.str (s ++ l))) (ls.map tagResponseInterceptor) req
          from rfl,
        ih (s ++ l), concatAll, String.append_assoc]

/-- C6: both interceptor phases run the registered interceptors
left-to-right over the ordered list: processing a concatenated list equals
processing the first segment and feeding its outcome to the second
(sequential composition in registration order), and a chain of trace
interceptors records its labels exactly in registration order. -/
theorem interceptors_registration_order :
    (∀ (input : Outcome) (is1 is2 : List InterceptorM),
      processRequest input (is1 ++ is2)
        = processRequest (processRequest input is1) is2) ∧
    (∀ (input : Outcome) (is1 is2 : List InterceptorM) (req : RequestM),
      processResponse input (is1 ++ is2) req
        = processResponse (processResponse input is1 req) is2 req) ∧
    (∀ labels : List String,
      processRequest (.resolved (.str "")) (labels.map tagRequestInterceptor)
        = .resolved (.str (concatAll labels))) ∧
    (∀ (labels : List String) (req : RequestM),
      processResponse (.resolved (.str "")) (labels.map tagResponseInterceptor) req
        = .resolved (.str (concatAll labels))) := by
  refine ⟨?_, ?_, ?_, ?_⟩
  · intro input is1 is2
    exact applyInterceptors_append input _ _ is1 is2
  · intro input is1 is2 req
    exact applyInterceptors_append input _ _ is1 is2
  · intro labels
    rw [processRequest_tags labels "", String.empty_append]
  · intro labels req
    rw [processResponse_tags labels req "", String.empty_append]

/-! ## Claim C3: dispatch decision after the request-interceptor phase -/

/-- C3: after the request-interceptor phase, (1) a response instance
short-circuits: for EVERY transport the settlement is the response phase
seeded with that response and the originally built request — the transport
is never invoked; (2) a request instance is passed to the transport, whose
outcome seeds the response phase together with that request; (3) any other
value rejects with the descriptive error naming the invalid value. -/
theorem fetch_dispatch (c : HttpClient) (input : FetchInput) (init : Option InitArg) :
    (∀ r : ResponseM,
      processRequest (.resolved (.req (builtRequestOf c input init))) c.interceptors
          = .resolved (.resp r) →
      ∀ transport, (HttpClient.fetch transport c input init).2
        = processResponse (.resolved (.resp r)) c.interceptors
            (builtRequestOf c input init)) ∧
    (∀ r2 : RequestM,
      processRequest (.resolved (.req (builtRequestOf c input init))) c.interceptors
          = .resolved (.req r2) →
      ∀ transport, (HttpClient.fetch transport c input init).2
        = processResponse (transport r2) c.interceptors r2) ∧
    (∀ v : JsVal, (∀ r, v ≠ .req r) → (∀ r, v ≠ .resp r) →
      processRequest (.resolved (.req (builtRequestOf c input init))) c.interceptors
          = .resolved v →
      ∀ transport, (HttpClient.fetch transport c input init).2
        = .rejected (.error (invalidResultMsg v))) := by
  have hfet : ∀ transport, (HttpClient.fetch transport c input init).2
      = (processRequest (.resolved (.req (builtRequestOf c input init)))
          c.interceptors).thenBoth
          (fun result =>
            match result with
            | .resp r => processResponse (.resolved (.resp r)) c.interceptors
                (builtRequestOf c input init)
            | .req r2 => processResponse (transport r2) c.interceptors r2
            | v => .rejected (.error (invalidResultMsg v)))
          thrower := fun _ => rfl
  refine ⟨?_, ?_, ?_⟩
  · intro r h transport
    rw [hfet transport, h]
    rfl
  · intro r2 h transport
    rw [hfet transport, h]
    rfl
  · intro v hreq hresp h transport
    rw [hfet transport, h]
    cases v with
    | req r => exact absurd rfl (hreq r)
    | resp r => exact absurd rfl (hresp r)
    | error m => rfl
    | str s => rfl

/-- C3 witness: a request interceptor returns a response directly; the fetch
settlement is the response phase seeded with it, under a transport that
would reject — so the transport was never consulted. -/
theorem fetch_dispatch_witness :
    (HttpClient.fetch wTransport wClient (.url "/a") none).2
      = processResponse (.resolved (.resp wResponse)) wClient.interceptors
          (builtRequestOf wClient (.url "/a") none) :=
  (fetch_dispatch wClient (.url "/a") none).1 wResponse rfl wTransport

/-! ## Claim C4: the standard preset's error-response interceptor -/

/-- C4: `rejectErrorResponses` appends the `rejectOnError` response
interceptor; that interceptor turns every response whose `ok` flag is false
into a rejection carrying the response itself and returns every response
whose `ok` flag is true unchanged — also when run as the response phase of
the pipeline. -/
theorem rejectErrorResponses_spec (c : HttpClientConfiguration) (r : ResponseM)
    (req : RequestM) :
    ((c.rejectErrorResponses).interceptors
      = some ((c.interceptors.getD []) ++ [rejectOnErrorInterceptor])) ∧
    (r.ok = false → rejectOnError (.resp r) = .rejected (.resp r)) ∧
    (r.ok = true → rejectOnError (.resp r) = .resolved (.resp r)) ∧
    (processResponse (.resolved (.resp r)) [rejectOnErrorInterceptor] req
      = if r.ok then .resolved (.resp r) else .rejected (.resp r)) := by
  refine ⟨rfl, ?_, ?_, ?_⟩
  · intro h
    simp [rejectOnError, jsRespOk, h]
  · intro h
    simp [rejectOnError, jsRespOk, h]
  · cases h : r.ok <;>
      simp [processResponse, applyInterceptors, Outcome.thenBoth,
        rejectOnErrorInterceptor, rejectOnError, jsRespOk, h]

/-- C4 witness: the theorem applied to a failure response and to a success
response. -/
theorem rejectErrorResponses_spec_witness :
    rejectOnError (.resp ⟨false, "e"⟩) = .rejected (.resp ⟨false, "e"⟩) ∧
    rejectOnError (.resp ⟨true, "s"⟩) = .resolved (.resp ⟨true, "s"⟩) :=
  ⟨(rejectErrorResponses_spec {} ⟨false, "e"⟩ ⟨"u", []⟩).2.1 rfl,
   (rejectErrorResponses_spec {} ⟨true, "s"⟩ ⟨"u", []⟩).2.2.1 rfl⟩

/-! ## Claim C7: the active-request counter -/

/-- C7: the counter is incremented at call start and decremented exactly
once when the returned promise settles: after any fetch call the counter is
back at its pre-call value, and the settlement is exactly the pipeline's
outcome (the decrement is a pure side effect that never alters it).  For
any interleaving of start/settle events of concurrent calls the counter
moves by (starts − settles), hence nets to zero when every started call has
settled. -/
theorem fetch_request_tracking (c : HttpClient) (input : FetchInput)
    (init : Option InitArg) :
    (∀ transport, (HttpClient.fetch transport c input init).1.activeRequestCount
      = c.activeRequestCount) ∧
    (∀ transport, (HttpClient.fetch transport c input init).2
      = fetchOutcome transport (trackRequestStart c) input init) ∧
    (∀ es : List TrackEvent, (applyTrackEvents c es).activeRequestCount
      = c.activeRequestCount + countStarts es - countSettles es) ∧
    (∀ es : List TrackEvent, countStarts es = countSettles es →
      (applyTrackEvents c es).activeRequestCount = c.activeRequestCount) := by
  have hev : ∀ (es : List TrackEvent) (x : HttpClient),
      (applyTrackEvents x es).activeRequestCount
        = x.activeRequestCount + countStarts es - countSettles es := by
    intro es
    induction es with
    | nil =>
        intro x
        simp [applyTrackEvents, countStarts, countSettles]
    | cons e es ih =>
        intro x
        cases e with
        | start =>
            rw [show applyTrackEvents x (.start :: es)
                = applyTrackEvents (trackRequestStart x) es from rfl, ih]
            simp only [trackRequestStart, countStarts, countSettles]
            omega
        | settle =>
            rw [show applyTrackEvents x (.settle :: es)
                = applyTrackEvents (trackRequestEnd x) es from rfl, ih]
            simp only [trackRequestEnd, countStarts, countSettles]
            omega
  refine ⟨?_, ?_, fun es => hev es c, ?_⟩
  · intro transport
    show (trackRequestEnd (trackRequestStart c)).activeRequestCount = _
    simp [trackRequestEnd, trackRequestStart]
  · intro transport
    rfl
  · intro es h
    rw [hev es c, h]
    omega

/-- C7 witness: three interleaved calls start and settle; the counter is
back at its initial value. -/
theorem fetch_request_tracking_witness :
    (applyTrackEvents initialClient
      [.start, .start, .settle, .start, .settle, .settle]).activeRequestCount
      = initialClient.activeRequestCount :=
  (fetch_request_tracking initialClient (.url "/a") none).2.2.2
    [.start, .start, .settle, .start, .settle, .settle] (by decide)

/-! ## Claims C8-C10: HttpClient.configure -/

/-- C8, counterexample: `typeof null === 'object'`, so `configure(null)` is
accepted (no error; the client is even marked configured) although `null`
is neither a plain default-options object nor a callback function — the
claimed "fails exactly when the argument is neither" is false at `null`. -/
theorem configure_accepts_null :
    specIsPlainDefaultsObject (ConfigArg.obj none) = false ∧
    specIsConfigCallback (ConfigArg.obj none) = false ∧
    (HttpClient.configure initialClient (ConfigArg.obj none)).2 = none ∧
    (HttpClient.configure initialClient (ConfigArg.obj none)).1.isConfigured = true :=
  ⟨rfl, rfl, rfl, rfl⟩

/-- C8, amended: `configure` fails exactly when the argument's `typeof` is
neither `'object'` (`null` included) nor `'function'`, or when the
resulting normalized configuration's defaults are non-null and carry an
opaque `Headers` instance as their headers. -/
theorem configure_error_iff (c : HttpClient) (arg : ConfigArg) :
    (HttpClient.configure c arg).2.isSome = true ↔
      typeofIsNeither arg = true ∨
      (∃ nc, normalizeConfig c arg = some nc ∧
        headersIsInstance nc.defaults = true) := by
  cases hn : normalizeConfig c arg with
  | none =>
      cases arg with
      | prim s => simp [HttpClient.configure, hn, typeofIsNeither]
      | obj d => simp [normalizeConfig] at hn
      | func f => simp [normalizeConfig] at hn
  | some nc =>
      have htype : typeofIsNeither arg = false := by
        cases arg with
        | prim s => simp [normalizeConfig] at hn
        | obj d => rfl
        | func f => rfl
      cases hh : headersIsInstance nc.defaults with
      | true => simp [HttpClient.configure, hn, hh, htype]
      | false => simp [HttpClient.configure, hn, hh, htype]

/-- C8 witness: the amended theorem applied to an argument of invalid type
(`typeof` neither object nor function). -/
theorem configure_error_iff_witness :
    (HttpClient.configure initialClient (ConfigArg.prim "nope")).2.isSome = true :=
  (configure_error_iff initialClient (ConfigArg.prim "nope")).mpr (Or.inl rfl)

/-- C9, counterexample: `configure` with a plain default-options object
succeeds, but the wrapper `{ defaults: config }` has no `baseUrl` member,
so the client's `baseUrl` afterwards is `undefined` (`none`) — not the
empty string the claim states. -/
theorem configure_object_baseUrl_not_empty :
    (HttpClient.configure initialClient (ConfigArg.obj (some {}))).2 = none ∧
    (HttpClient.configure initialClient (ConfigArg.obj (some {}))).1.baseUrl = none ∧
    (HttpClient.configure initialClient (ConfigArg.obj (some {}))).1.baseUrl
      ≠ some "" := by
  refine ⟨rfl, rfl, ?_⟩
  intro h
  exact Option.noConfusion h

/-- C9, amended: `configure` with a plain default-options object (whose
headers are not a `Headers` instance) wraps it as `{ defaults: config }`:
afterwards the client's `baseUrl` is `undefined` (treated as the empty
string when request URLs are resolved, cf. `getRequestUrl`), its defaults
are the supplied object, its interceptor list is empty, and it is marked
configured. -/
theorem configure_with_plain_object (c : HttpClient) (d : DefaultsRec)
    (h : headersIsInstance (some d) = false) :
    HttpClient.configure c (ConfigArg.obj (some d))
      = ({ c with
            baseUrl := none
            defaults := some d
            interceptors := []
            isConfigured := true }, none) := by
  simp [HttpClient.configure, normalizeConfig, h]

/-- C9 witness: the amended theorem applied to the empty default-options
object on a fresh client. -/
theorem configure_with_plain_object_witness :
    HttpClient.configure initialClient (ConfigArg.obj (some {}))
      = ({ initialClient with
            baseUrl := none
            defaults := some {}
            interceptors := []
            isConfigured := true }, none) :=
  configure_with_plain_object initialClient {} rfl

/-- C10: when `configure` throws — invalid argument type, or
`Headers`-instance default headers — the client's state (baseUrl, defaults,
interceptors, isConfigured) is exactly what it was before the call: both
error paths run before any assignment to client state. -/
theorem configure_error_preserves_state (c : HttpClient) (arg : ConfigArg)
    (h : (HttpClient.configure c arg).2.isSome = true) :
    (HttpClient.configure c arg).1 = c := by
  cases hn : normalizeConfig c arg with
  | none => simp [HttpClient.configure, hn]
  | some nc =>
      cases hh : headersIsInstance nc.defaults with
      | true => simp [HttpClient.configure, hn, hh]
      | false =>
          exfalso
          simp [HttpClient.configure, hn, hh] at h

/-- C10 witness: the theorem applied to both throwing paths — an invalid
argument type and a plain object carrying a Headers instance. -/
theorem configure_error_preserves_state_witness :
    (HttpClient.configure initialClient (ConfigArg.prim "x")).1 = initialClient ∧
    (HttpClient.configure initialClient
        (ConfigArg.obj (some { headers := some (.inst []) }))).1 = initialClient :=
  ⟨configure_error_preserves_state initialClient (ConfigArg.prim "x") rfl,
   configure_error_preserves_state initialClient
     (ConfigArg.obj (some { headers := some (.inst []) })) rfl⟩

end FetchClient
